import Mathlib

/-!
Verification development for the plaincloud structured-logging core.

The repository carries two parallel versions of the same design:
* the legacy driver, namespace `PlainCloud::Log` (unnamed/part_001 `sink.h`,
  `include/log/logger.h`, `include/log/sinks/ostream_sink.h`);
* the rewritten driver, namespace `SlimLog` (the `sink.h` text embedded in
  `cmake/FindLSan.cmake`, `include/slimlog/sinks/ostream_sink.h`).

The definitions below are shallow embeddings of those sources.  Emission is
modelled as a pure function from the driver state to a trace of observable
events (producer invocations, per-sink deliveries, buffer resets), so that
evaluation counts and event order can be stated and decided exactly.
-/

/-- Severity enumeration, translated from `enum class Level { Fatal, Error,
Warning, Info, Debug, Trace }` (include/log/logger.h line 29 and the `Level`
enum of the rewritten design).  Declaration order fixes the underlying
values `Fatal = 0 .. Trace = 5`, most critical first. -/
inductive Level : Type where
  | fatal
  | error
  | warning
  | info
  | debug
  | trace
deriving DecidableEq, Repr

/-- Underlying integer of a `Level`, as fixed by the C++ enum declaration
order: `Fatal = 0`, `Error = 1`, `Warning = 2`, `Info = 3`, `Debug = 4`,
`Trace = 5`. -/
def Level.toNat : Level → Nat
  | Level.fatal => 0
  | Level.error => 1
  | Level.warning => 2
  | Level.info => 3
  | Level.debug => 4
  | Level.trace => 5

/-- The four producer shapes the drivers dispatch over with `if constexpr`
(part_001 lines 259-277 and the FindLSan.cmake sink.h lines 308-334):
a callable taking the buffer as first argument, a void-returning callable
without buffer, a value-returning callable, and a plain non-invocable value
used directly as the message. -/
inductive ProducerKind : Type where
  | bufferWriter
  | voidCallback
  | valueReturning
  | plainValue
deriving DecidableEq, Repr

/-- Observable events of one legacy emission call: an invocation of the
message producer, the delivery of the record to a sink, and a reset of the
shared output buffer (`buffer.str(std::basic_string<CharType>{})`). -/
inductive LegacyEv : Type where
  | producerCall
  | sinkMsg (sid : Nat)
  | bufferReset
deriving DecidableEq, Repr

/-- Producer-invocation events of one loop iteration of the legacy driver:
for the three invocable shapes the callback is invoked in the iteration
(part_001 lines 260, 264, 271); for a plain value no invocation happens
(line 276 passes the value through). -/
def producerEvents (kind : ProducerKind) : List LegacyEv :=
  match kind with
  | ProducerKind.plainValue => []
  | _ => [LegacyEv.producerCall]

/-- The sink loop of `SinkDriver<Logger, SingleThreadedPolicy>::message`
(part_001 lines 257-280): for each sink of `m_sinks` (a map sink -> enabled
flag, modelled as an association list in iteration order), if the sink is
enabled the callback is evaluated in this iteration, the sink receives the
record, and then the shared buffer is reset; disabled sinks are skipped. -/
def legacy_sink_loop (kind : ProducerKind) : List (Nat × Bool) → List LegacyEv
  | [] => []
  | (sid, enabled) :: rest =>
    if enabled then
      producerEvents kind
        ++ (LegacyEv.sinkMsg sid :: LegacyEv.bufferReset :: legacy_sink_loop kind rest)
    else
      legacy_sink_loop kind rest

/-- Level guard of the legacy driver (part_001 lines 246-248):
`if (static_cast<Level>(logger.m_level) < level) { return; }`.
The call proceeds to the sink loop iff the comparison on the underlying
enum values does not hold. -/
def legacy_admitted (threshold lvl : Level) : Bool :=
  !(decide (threshold.toNat < lvl.toNat))

/-- Model of `SinkDriver<Logger, SingleThreadedPolicy>::message` (part_001 lines
237-281): early return when the call level is not admitted by the logger
threshold, otherwise run the sink loop. -/
def legacy_message (threshold lvl : Level) (kind : ProducerKind)
    (sinks : List (Nat × Bool)) : List LegacyEv :=
  if legacy_admitted threshold lvl then legacy_sink_loop kind sinks else []

/-- Model of `Logger::emit` (include/log/logger.h lines 93-105): for each sink, when
`m_level >= level` holds the callback is evaluated and the sink's `emit` is
invoked; otherwise nothing happens for that sink. -/
def logger_emit (threshold lvl : Level) : List Nat → List LegacyEv
  | [] => []
  | sid :: rest =>
    if lvl.toNat ≤ threshold.toNat then
      LegacyEv.producerCall :: LegacyEv.sinkMsg sid :: logger_emit threshold lvl rest
    else
      logger_emit threshold lvl rest

theorem logger_emit_not_admitted (threshold lvl : Level) (h : ¬ lvl.toNat ≤ threshold.toNat) :
    ∀ sinks : List Nat, logger_emit threshold lvl sinks = [] := by
  intro sinks
  induction sinks with
  | nil => rfl
  | cons sid rest ih => simp [logger_emit, h, ih]

/-- Claim C2: a call at level `L` against a node with threshold `T` is
admitted iff `L` is at least as critical as `T` under the order
`Fatal < Error < Warning < Info < Debug < Trace` (most-critical first,
i.e. iff `L.toNat ≤ T.toNat` on the underlying enum values), and a
non-admitted call produces no event at all: the message producer is never
invoked and no sink is invoked, both in the legacy driver guard
(part_001 lines 246-248) and in `Logger::emit` (logger.h lines 93-105). -/
theorem severity_admission (threshold lvl : Level) (kind : ProducerKind)
    (sinks : List (Nat × Bool)) (ls : List Nat) :
    (legacy_admitted threshold lvl = true ↔ lvl.toNat ≤ threshold.toNat) ∧
    (legacy_admitted threshold lvl = false →
      legacy_message threshold lvl kind sinks = []) ∧
    (legacy_admitted threshold lvl = false → logger_emit threshold lvl ls = []) ∧
    (Level.fatal.toNat < Level.error.toNat ∧ Level.error.toNat < Level.warning.toNat ∧
      Level.warning.toNat < Level.info.toNat ∧ Level.info.toNat < Level.debug.toNat ∧
      Level.debug.toNat < Level.trace.toNat) := by
  refine ⟨?_, ?_, ?_, by decide⟩
  · simp [legacy_admitted, Nat.not_lt]
  · intro h
    simp [legacy_message, h]
  · intro h
    have h' : ¬ lvl.toNat ≤ threshold.toNat := by
      simpa [legacy_admitted, Nat.not_lt] using h
    exact logger_emit_not_admitted threshold lvl h' ls

/-- Concrete instance of `severity_admission`: threshold `Info` does not
admit a `Debug` call, and the filtered call produces no producer
invocation and no sink delivery. -/
theorem severity_admission_witness :
    (legacy_admitted Level.info Level.debug = true ↔
      Level.debug.toNat ≤ Level.info.toNat) ∧
    (legacy_admitted Level.info Level.debug = false →
      legacy_message Level.info Level.debug ProducerKind.valueReturning [(1, true)] = []) ∧
    (legacy_admitted Level.info Level.debug = false →
      logger_emit Level.info Level.debug [1]= []) ∧
    (Level.fatal.toNat < Level.error.toNat ∧ Level.error.toNat < Level.warning.toNat ∧
      Level.warning.toNat < Level.info.toNat ∧ Level.info.toNat < Level.debug.toNat ∧
      Level.debug.toNat < Level.trace.toNat) :=
  severity_admission Level.info Level.debug ProducerKind.valueReturning [(1, true)] [1]

/-- Claim C1 fails on the legacy driver: with two enabled (hence
admissible) sinks and a buffer-writing callback, the emission call at an
admitted level invokes the producer twice — once per sink, inside the loop
(part_001 lines 259-261) — not exactly once. -/
theorem producer_once_counterexample :
    legacy_message Level.info Level.info ProducerKind.bufferWriter [(1, true), (2, true)]
      = [LegacyEv.producerCall, LegacyEv.sinkMsg 1, LegacyEv.bufferReset,
         LegacyEv.producerCall, LegacyEv.sinkMsg 2, LegacyEv.bufferReset] ∧
    (legacy_message Level.info Level.info ProducerKind.bufferWriter
        [(1, true), (2, true)]).count LegacyEv.producerCall ≠ 1 := by
  decide

/-- Claim C5 fails on the legacy driver: with two enabled sinks the shared
buffer is reset twice in one call — once after each enabled sink, inside
the loop (part_001 line 278) — and in particular a reset occurs between the
two sink deliveries, not once after the whole iteration. -/
theorem buffer_reset_counterexample :
    legacy_message Level.info Level.info ProducerKind.bufferWriter [(1, true), (2, true)]
      = [LegacyEv.producerCall, LegacyEv.sinkMsg 1, LegacyEv.bufferReset,
         LegacyEv.producerCall, LegacyEv.sinkMsg 2, LegacyEv.bufferReset] ∧
    (legacy_message Level.info Level.info ProducerKind.bufferWriter
        [(1, true), (2, true)]).count LegacyEv.bufferReset ≠ 1 := by
  decide

/-! ## The rewritten (SlimLog) emission protocol

`SlimLog::SinkDriver::message` (the sink.h text in cmake/FindLSan.cmake,
lines 276-339) iterates over `m_effective_sinks`, a cached map from sink to
the logger node owning that entry.  Each entry is admitted by the OWNER
node's threshold (`if (!logger->level_enabled(level)) continue;`).  The
producer is evaluated at the first admitted entry only (guarded by the
`evaluated` flag); its result is stored in `record.message` — for a
buffer-writing callback, a view of the per-call local buffer — and the same
record is handed to every later admitted sink.  A void-returning callback
that does not take the buffer is invoked and the loop exits with `break`
before any `sink->message(record)` call.

The body of `Logger::level_enabled` is not under src/; following spec §3
(and the identical comparison of the legacy driver) a level is enabled iff
it is at least as critical as the node's threshold. -/

/-- Observable events of one rewritten emission call: a producer invocation,
or delivery of the record (whose message content is abstracted as a `Nat`)
to a sink. -/
inductive SlimEv : Type where
  | producerCall
  | sinkMsg (sid : Nat) (content : Nat)
deriving DecidableEq, Repr

/-- Owner-threshold admission test of the rewritten loop:
`logger->level_enabled(level)` for the node recorded as the entry's owner,
where `thr` maps a node id to that node's severity threshold. -/
def slim_admits (thr : Nat → Level) (lvl : Level) (owner : Nat) : Bool :=
  decide (lvl.toNat ≤ (thr owner).toNat)

/-- The sink loop of `SlimLog::SinkDriver::message` (FindLSan.cmake sink.h
lines 296-338).  Entries are `(sinkId, ownerNodeId)` pairs of
`m_effective_sinks` in iteration order; `evaluated` is the flag declared at
line 296; `pval` abstracts the value the producer yields (or the buffer
content it writes). -/
def slim_message_loop (kind : ProducerKind) (pval : Nat) (lvl : Level)
    (thr : Nat → Level) : List (Nat × Nat) → Bool → List SlimEv
  | [], _ => []
  | (sid, owner) :: rest, evaluated =>
    if slim_admits thr lvl owner then
      if evaluated then
        SlimEv.sinkMsg sid pval :: slim_message_loop kind pval lvl thr rest true
      else
        match kind with
        | ProducerKind.voidCallback => [SlimEv.producerCall]
        | ProducerKind.plainValue =>
            SlimEv.sinkMsg sid pval :: slim_message_loop kind pval lvl thr rest true
        | ProducerKind.bufferWriter =>
            SlimEv.producerCall :: SlimEv.sinkMsg sid pval
              :: slim_message_loop kind pval lvl thr rest true
        | ProducerKind.valueReturning =>
            SlimEv.producerCall :: SlimEv.sinkMsg sid pval
              :: slim_message_loop kind pval lvl thr rest true
    else
      slim_message_loop kind pval lvl thr rest evaluated

/-- Model of `SlimLog::SinkDriver::message`: the loop starts with `evaluated = false`. -/
def slim_message (kind : ProducerKind) (pval : Nat) (lvl : Level)
    (thr : Nat → Level) (entries : List (Nat × Nat)) : List SlimEv :=
  slim_message_loop kind pval lvl thr entries false

/-- The admissible entries of an emission call: the effective-sink entries
whose owner's threshold admits the call level. -/
def admissible_entries (lvl : Level) (thr : Nat → Level)
    (entries : List (Nat × Nat)) : List (Nat × Nat) :=
  entries.filter (fun e => slim_admits thr lvl e.2)

/-- The sinks that actually receive the record in a trace, in order. -/
def receivers (trace : List SlimEv) : List Nat :=
  trace.filterMap (fun ev =>
    match ev with
    | SlimEv.sinkMsg s _ => some s
    | _ => none)

theorem admissible_entries_cons (lvl : Level) (thr : Nat → Level)
    (e : Nat × Nat) (rest : List (Nat × Nat)) :
    admissible_entries lvl thr (e :: rest)
      = if slim_admits thr lvl e.2
          then e :: admissible_entries lvl thr rest
          else admissible_entries lvl thr rest := by
  by_cases h : slim_admits thr lvl e.2 <;> simp [admissible_entries, List.filter, h]

theorem slim_loop_evaluated (kind : ProducerKind) (pval : Nat) (lvl : Level)
    (thr : Nat → Level) :
    ∀ entries : List (Nat × Nat),
      slim_message_loop kind pval lvl thr entries true
        = (admissible_entries lvl thr entries).map (fun e => SlimEv.sinkMsg e.1 pval) := by
  intro entries
  induction entries with
  | nil => simp [slim_message_loop, admissible_entries]
  | cons e rest ih =>
    obtain ⟨sid, owner⟩ := e
    by_cases h : slim_admits thr lvl owner <;>
      simp [slim_message_loop, admissible_entries_cons, h, ih]

theorem slim_message_first_admissible (kind : ProducerKind) (pval : Nat)
    (lvl : Level) (thr : Nat → Level)
    (hk : kind = ProducerKind.bufferWriter ∨ kind = ProducerKind.valueReturning) :
    ∀ entries : List (Nat × Nat), admissible_entries lvl thr entries ≠ [] →
      slim_message kind pval lvl thr entries
        = SlimEv.producerCall ::
            (admissible_entries lvl thr entries).map (fun e => SlimEv.sinkMsg e.1 pval) := by
  intro entries
  induction entries with
  | nil => intro h; simp [admissible_entries] at h
  | cons e rest ih =>
    intro h
    obtain ⟨sid, owner⟩ := e
    by_cases ha : slim_admits thr lvl owner
    · rcases hk with hk | hk <;>
        simp [slim_message, slim_message_loop, ha, hk, slim_loop_evaluated,
          admissible_entries_cons]
    · have h' : admissible_entries lvl thr rest ≠ [] := by
        simpa [admissible_entries_cons, ha] using h
      simpa [slim_message, slim_message_loop, ha, admissible_entries_cons] using ih h'

theorem count_producer_in_map (pval : Nat) (l : List (Nat × Nat)) :
    (l.map (fun e => SlimEv.sinkMsg e.1 pval)).count SlimEv.producerCall = 0 := by
  induction l with
  | nil => rfl
  | cons e rest ih => simp [List.count_cons, ih]

/-- Claim C1 as amended: in the rewritten driver, for an emission call with
more than one admissible effective-sink entry and an invocable producer
whose result becomes the message (a buffer-writing callback or a
value-returning callback), the producer is invoked exactly once — at the
first admissible entry — and every admissible sink receives the same record
content `pval`; the legacy driver instead invokes the producer once per
enabled sink. -/
theorem slim_producer_once (kind : ProducerKind) (pval : Nat) (lvl : Level)
    (thr : Nat → Level) (entries : List (Nat × Nat))
    (hk : kind = ProducerKind.bufferWriter ∨ kind = ProducerKind.valueReturning)
    (hn : 2 ≤ (admissible_entries lvl thr entries).length) :
    slim_message kind pval lvl thr entries
      = SlimEv.producerCall ::
          (admissible_entries lvl thr entries).map (fun e => SlimEv.sinkMsg e.1 pval) ∧
    (slim_message kind pval lvl thr entries).count SlimEv.producerCall = 1 ∧
    (legacy_sink_loop kind [(1, true), (2, true)]).count LegacyEv.producerCall = 2 := by
  have hne : admissible_entries lvl thr entries ≠ [] := by
    intro hemp
    rw [hemp] at hn
    simp at hn
  have heq := slim_message_first_admissible kind pval lvl thr hk entries hne
  refine ⟨heq, ?_, ?_⟩
  · rw [heq]
    simp [List.count_cons, count_producer_in_map]
  · rcases hk with hk | hk <;> simp [hk, legacy_sink_loop, producerEvents, List.count_cons]

/-- Concrete instance of `slim_producer_once`: two admissible entries owned
by a node with threshold `Info`, call at `Info`; the trace holds one
producer invocation followed by the two deliveries, both carrying the same
content. -/
theorem slim_producer_once_witness :
    slim_message ProducerKind.valueReturning 42 Level.info (fun _ => Level.info)
        [(1, 0), (2, 0)]
      = SlimEv.producerCall ::
          (admissible_entries Level.info (fun _ => Level.info) [(1, 0), (2, 0)]).map
            (fun e => SlimEv.sinkMsg e.1 42) ∧
    (slim_message ProducerKind.valueReturning 42 Level.info (fun _ => Level.info)
        [(1, 0), (2, 0)]).count SlimEv.producerCall = 1 ∧
    (legacy_sink_loop ProducerKind.valueReturning [(1, true), (2, true)]).count
        LegacyEv.producerCall = 2 :=
  slim_producer_once ProducerKind.valueReturning 42 Level.info (fun _ => Level.info)
    [(1, 0), (2, 0)] (Or.inr rfl) (by decide)

/-- Claim C10: in the rewritten driver, a void-returning callable that does
not take the buffer is invoked exactly once at the first admissible entry
and the loop then exits with `break` (FindLSan.cmake sink.h lines 314-317),
before the `sink->message(record)` call of that iteration — so the trace is
exactly one producer invocation and no sink receives the record. -/
theorem slim_void_callback_break (pval : Nat) (lvl : Level) (thr : Nat → Level)
    (entries : List (Nat × Nat))
    (hn : admissible_entries lvl thr entries ≠ []) :
    slim_message ProducerKind.voidCallback pval lvl thr entries = [SlimEv.producerCall] ∧
    receivers (slim_message ProducerKind.voidCallback pval lvl thr entries) = [] := by
  have key : slim_message ProducerKind.voidCallback pval lvl thr entries
      = [SlimEv.producerCall] := by
    induction entries with
    | nil => simp [admissible_entries] at hn
    | cons e rest ih =>
      obtain ⟨sid, owner⟩ := e
      by_cases ha : slim_admits thr lvl owner
      · simp [slim_message, slim_message_loop, ha]
      · have h' : admissible_entries lvl thr rest ≠ [] := by
          simpa [admissible_entries_cons, ha] using hn
        simpa [slim_message, slim_message_loop, ha] using ih h'
  exact ⟨key, by simp [key, receivers]⟩

/-- Concrete instance of `slim_void_callback_break`: one admissible entry,
the callback runs once and even that first sink gets nothing. -/
theorem slim_void_callback_break_witness :
    slim_message ProducerKind.voidCallback 0 Level.error (fun _ => Level.info) [(1, 0)]
      = [SlimEv.producerCall] ∧
    receivers (slim_message ProducerKind.voidCallback 0 Level.error
      (fun _ => Level.info) [(1, 0)]) = [] :=
  slim_void_callback_break 0 Level.error (fun _ => Level.info) [(1, 0)] (by decide)

theorem receivers_nil : receivers [] = [] := rfl

theorem receivers_cons_sink (s c : Nat) (l : List SlimEv) :
    receivers (SlimEv.sinkMsg s c :: l) = s :: receivers l := by
  simp [receivers]

theorem receivers_cons_producer (l : List SlimEv) :
    receivers (SlimEv.producerCall :: l) = receivers l := by
  simp [receivers]

theorem slim_receivers_loop (kind : ProducerKind) (pval : Nat) (lvl : Level)
    (thr : Nat → Level) (hk : kind ≠ ProducerKind.voidCallback) :
    ∀ (entries : List (Nat × Nat)) (evaluated : Bool),
      receivers (slim_message_loop kind pval lvl thr entries evaluated)
        = (admissible_entries lvl thr entries).map (fun e => e.1) := by
  intro entries
  induction entries with
  | nil => intro evaluated; simp [slim_message_loop, admissible_entries, receivers]
  | cons e rest ih =>
    intro evaluated
    obtain ⟨sid, owner⟩ := e
    by_cases ha : slim_admits thr lvl owner
    · cases evaluated with
      | true =>
        simp [slim_message_loop, ha, admissible_entries_cons,
          receivers_cons_sink, ih true]
      | false =>
        cases kind with
        | voidCallback => exact absurd rfl hk
        | plainValue =>
            simp [slim_message_loop, ha, admissible_entries_cons,
              receivers_cons_sink, ih true]
        | bufferWriter =>
            simp [slim_message_loop, ha, admissible_entries_cons,
              receivers_cons_producer, receivers_cons_sink, ih true]
        | valueReturning =>
            simp [slim_message_loop, ha, admissible_entries_cons,
              receivers_cons_producer, receivers_cons_sink, ih true]
    · simp [slim_message_loop, ha, admissible_entries_cons, ih evaluated]

/-- Claim C4: in the rewritten driver's emission loop, each effective-sink
entry is admitted or skipped according to the severity threshold of the
node recorded as the entry's owner (`if (!logger->level_enabled(level))
continue;`, FindLSan.cmake sink.h lines 300-302): for any message-carrying
producer shape, the sinks that receive the record are exactly the entries
whose OWNER's threshold admits the level.  The loop consults no call-site
threshold at all, so a message logged at a descendant node is filtered by
whichever ancestor owns the matched entry. -/
theorem owner_threshold_gating (kind : ProducerKind) (pval : Nat) (lvl : Level)
    (thr : Nat → Level) (entries : List (Nat × Nat))
    (hk : kind ≠ ProducerKind.voidCallback) :
    receivers (slim_message kind pval lvl thr entries)
      = (entries.filter (fun e => slim_admits thr lvl e.2)).map (fun e => e.1) :=
  slim_receivers_loop kind pval lvl thr hk entries false

/-- Concrete instance of `owner_threshold_gating`: an `Error` call at a
descendant delivers to the sink owned by node 1 (threshold `Warning`
admits `Error`) and skips the sink owned by node 2 (threshold `Fatal`
rejects `Error`), regardless of the call-site node. -/
theorem owner_threshold_gating_witness :
    receivers (slim_message ProducerKind.valueReturning 7 Level.error
        (fun n => if n = 1 then Level.warning else Level.fatal) [(10, 1), (20, 2)])
      = ([((10 : Nat), (1 : Nat)), (20, 2)].filter
          (fun e => slim_admits (fun n => if n = 1 then Level.warning else Level.fatal)
            Level.error e.2)).map (fun e => e.1) :=
  owner_threshold_gating ProducerKind.valueReturning 7 Level.error
    (fun n => if n = 1 then Level.warning else Level.fatal) [(10, 1), (20, 2)]
    (by decide)

theorem slim_loop_content (kind : ProducerKind) (pval : Nat) (lvl : Level)
    (thr : Nat → Level) :
    ∀ (entries : List (Nat × Nat)) (evaluated : Bool),
      ∀ ev ∈ slim_message_loop kind pval lvl thr entries evaluated,
        ev = SlimEv.producerCall ∨ ∃ sid, ev = SlimEv.sinkMsg sid pval := by
  intro entries
  induction entries with
  | nil => intro evaluated ev hev; simp [slim_message_loop] at hev
  | cons e rest ih =>
    intro evaluated ev hev
    obtain ⟨sid, owner⟩ := e
    by_cases ha : slim_admits thr lvl owner
    · cases evaluated with
      | true =>
        simp [slim_message_loop, ha] at hev
        rcases hev with hev | hev
        · exact Or.inr ⟨sid, hev⟩
        · exact ih true ev hev
      | false =>
        cases kind with
        | voidCallback =>
          simp [slim_message_loop, ha] at hev
          exact Or.inl hev
        | plainValue =>
          simp [slim_message_loop, ha] at hev
          rcases hev with hev | hev
          · exact Or.inr ⟨sid, hev⟩
          · exact ih true ev hev
        | bufferWriter =>
          simp [slim_message_loop, ha] at hev
          rcases hev with hev | hev | hev
          · exact Or.inl hev
          · exact Or.inr ⟨sid, hev⟩
          · exact ih true ev hev
        | valueReturning =>
          simp [slim_message_loop, ha] at hev
          rcases hev with hev | hev | hev
          · exact Or.inl hev
          · exact Or.inr ⟨sid, hev⟩
          · exact ih true ev hev
    · simp only [slim_message_loop, ha, if_false] at hev
      exact ih evaluated ev hev

/-- Claim C5 as amended: in the legacy driver the shared buffer is reset
once after EACH enabled sink — the loop body ends with
`buffer.str(std::basic_string<CharType>{})` (part_001 line 278) — so with
several enabled sinks resets occur between consecutive deliveries rather
than once after the whole iteration; in the rewritten driver the per-call
buffer is never cleared during the iteration, and every admissible sink of
the call reads the same buffered content. -/
theorem buffer_reset_per_sink (kind : ProducerKind) (sinks : List (Nat × Bool))
    (pval : Nat) (lvl : Level) (thr : Nat → Level) (entries : List (Nat × Nat)) :
    legacy_sink_loop kind sinks
      = (sinks.filter (fun p => p.2)).flatMap
          (fun p => producerEvents kind ++ [LegacyEv.sinkMsg p.1, LegacyEv.bufferReset]) ∧
    (∀ ev ∈ slim_message kind pval lvl thr entries,
      ev = SlimEv.producerCall ∨ ∃ sid, ev = SlimEv.sinkMsg sid pval) := by
  constructor
  · induction sinks with
    | nil => rfl
    | cons p rest ih =>
      obtain ⟨sid, enabled⟩ := p
      cases enabled with
      | true => simp [legacy_sink_loop, List.filter, ih]
      | false => simp [legacy_sink_loop, List.filter, ih]
  · intro ev hev
    exact slim_loop_content kind pval lvl thr entries false ev hev

/-! ## Direct sink-map operations

`m_sinks` is `std::unordered_map<std::shared_ptr<Sink<Logger>>, bool>`,
modelled as an association list from sink id to enabled flag.  The
operations are translated from `SinkDriver<Logger, SingleThreadedPolicy>`
(part_001): `add_sink` line 152-155 (`insert_or_assign(sink, true)` whose
`.second` is returned), `remove_sink` lines 179-182 (`erase(sink) == 1`),
`set_sink_enabled` lines 192-199 (`find`, assign `itr->second = enabled`,
return `true`; `false` when absent).  The multi-threaded driver wraps the
same bodies in a `WriteLock` (part_001 lines 345-391). -/

/-- Assignment through a found iterator (`itr->second = enabled`): replace
the flag of the first entry with the given key, leaving the rest alone. -/
def assign_flag (s : Nat) (b : Bool) : List (Nat × Bool) → List (Nat × Bool)
  | [] => []
  | (k, v) :: rest =>
    if k = s then (s, b) :: rest else (k, v) :: assign_flag s b rest

/-- Operation `set_sink_enabled(sink, enabled)`: assign the enabled flag of an
existing entry and return `true`; return `false` leaving the map untouched
when the sink is unknown.  The result is always a plain boolean — the
function has no failure path. -/
def set_sink_enabled (m : List (Nat × Bool)) (s : Nat) (b : Bool) :
    Bool × List (Nat × Bool) :=
  if (m.lookup s).isSome then
    (true, assign_flag s b m)
  else
    (false, m)

/-- Operation `add_sink(sink)`: `insert_or_assign(sink, true)` — the stored flag
becomes `true` in every case, and the returned boolean is `true` only for
a genuinely new entry. -/
def add_sink (m : List (Nat × Bool)) (s : Nat) : Bool × List (Nat × Bool) :=
  if (m.lookup s).isSome then
    (false, assign_flag s true m)
  else
    (true, m ++ [(s, true)])

/-- Operation `remove_sink(sink)`: erase the entry, returning whether one existed. -/
def remove_sink (m : List (Nat × Bool)) (s : Nat) : Bool × List (Nat × Bool) :=
  ((m.lookup s).isSome, m.filter (fun p => !(p.1 == s)))

theorem lookup_assign_self (s : Nat) (b : Bool) :
    ∀ m : List (Nat × Bool), (m.lookup s).isSome →
      (assign_flag s b m).lookup s = some b := by
  intro m
  induction m with
  | nil => intro h; simp [List.lookup] at h
  | cons p rest ih =>
    intro h
    obtain ⟨k, v⟩ := p
    by_cases hk : k = s
    · simp [assign_flag, hk, List.lookup]
    · have hbeq : (s == k) = false := by
        simp [Ne.symm hk]
      have h' : (rest.lookup s).isSome := by
        simpa [List.lookup, hbeq] using h
      simpa [assign_flag, hk, List.lookup, hbeq] using ih h'

theorem lookup_assign_other (s s' : Nat) (b : Bool) (hne : s' ≠ s) :
    ∀ m : List (Nat × Bool),
      (assign_flag s b m).lookup s' = m.lookup s' := by
  intro m
  induction m with
  | nil => rfl
  | cons p rest ih =>
    obtain ⟨k, v⟩ := p
    by_cases hk : k = s
    · subst hk
      have hbeq : (s' == k) = false := by
        simp [hne]
      simp [assign_flag, List.lookup, hbeq, ih]
    · simp [assign_flag, hk, List.lookup, ih]

/-- Claim C7: `set_sink_enabled(sink, b)` returns `false` and leaves the
sink map unchanged when the sink is unknown to the node, and otherwise
returns `true`, sets exactly that sink's flag to `b`, and leaves every
other entry as it was.  Absence is reported only through the boolean
result — the operation is a total function with no error outcome. -/
theorem set_sink_enabled_spec (m : List (Nat × Bool)) (s : Nat) (b : Bool) :
    (m.lookup s = none → set_sink_enabled m s b = (false, m)) ∧
    ((m.lookup s).isSome →
      (set_sink_enabled m s b).1 = true ∧
      (set_sink_enabled m s b).2.lookup s = some b ∧
      ∀ s', s' ≠ s → (set_sink_enabled m s b).2.lookup s' = m.lookup s') := by
  constructor
  · intro h
    simp [set_sink_enabled, h]
  · intro h
    refine ⟨by simp [set_sink_enabled, h], ?_, ?_⟩
    · simp only [set_sink_enabled, h, if_true]
      exact lookup_assign_self s b m h
    · intro s' hs'
      simp only [set_sink_enabled, h, if_true]
      exact lookup_assign_other s s' b hs' m

/-- Concrete instance of `set_sink_enabled_spec`: sink `2` is unknown to a
node holding only sink `1`, so the call reports `false` and changes
nothing; disabling the known sink `1` reports `true` and stores `false`. -/
theorem set_sink_enabled_spec_witness :
    set_sink_enabled [(1, true)] 2 false = (false, [(1, true)]) ∧
    (set_sink_enabled [(1, true)] 1 false).2.lookup 1 = some false :=
  ⟨(set_sink_enabled_spec [(1, true)] 2 false).1 (by decide),
   ((set_sink_enabled_spec [(1, true)] 1 false).2 (by decide)).2.1⟩

/-- Claim C9: re-adding a sink already present returns `false` (the
`.second` of `insert_or_assign`) yet overwrites the stored flag with
`true`; in particular a sink disabled through `set_sink_enabled(s, false)`
is enabled again after `add_sink(s)`. -/
theorem add_sink_reassign (m : List (Nat × Bool)) (s : Nat)
    (h : (m.lookup s).isSome) :
    ((add_sink m s).1 = false ∧ (add_sink m s).2.lookup s = some true) ∧
    ((add_sink (set_sink_enabled m s false).2 s).1 = false ∧
      (add_sink (set_sink_enabled m s false).2 s).2.lookup s = some true) := by
  have hm1 : ((set_sink_enabled m s false).2.lookup s) = some false := by
    simp only [set_sink_enabled, h, if_true]
    exact lookup_assign_self s false m h
  have hm1s : ((set_sink_enabled m s false).2.lookup s).isSome := by
    simp [hm1]
  constructor
  · refine ⟨by simp [add_sink, h], ?_⟩
    simp only [add_sink, h, if_true]
    exact lookup_assign_self s true m h
  · refine ⟨by simp [add_sink, hm1s], ?_⟩
    simp only [add_sink, hm1s, if_true]
    exact lookup_assign_self s true _ hm1s

/-- Concrete instance of `add_sink_reassign`: sink `7` is present and
enabled; after disabling it, re-adding reports `false` but leaves the sink
enabled. -/
theorem add_sink_reassign_witness :
    ((add_sink [(7, true)] 7).1 = false ∧
      (add_sink [(7, true)] 7).2.lookup 7 = some true) ∧
    ((add_sink (set_sink_enabled [(7, true)] 7 false).2 7).1 = false ∧
      (add_sink (set_sink_enabled [(7, true)] 7 false).2 7).2.lookup 7 = some true) :=
  add_sink_reassign [(7, true)] 7 (by decide)

/-! ## The reference stream-writing sink

`OStreamSink::message` (include/log/sinks/ostream_sink.h lines 56-63)
records the current buffer size, appends the pattern-rendered record via
`format`, appends one `'\n'`, writes exactly the appended span
`[orig_size, size)` to the stream, and restores the buffer with
`buffer.resize(orig_size)`.  `flush` (lines 65-68) forwards to
`m_ostream.flush()`.  The pattern renderer lives in `pattern.h`, which is
not under src/, so it is kept abstract as a function from a record to the
characters it renders. -/

/-- The stream destination: the characters written so far and the number
of flushes forwarded to it. -/
structure OStream where
  out : List Char
  flushes : Nat
deriving DecidableEq, Repr

/-- Model of `OStreamSink::message`, returning the updated stream and buffer. -/
def ostream_sink_message (render : Nat → List Char) (os : OStream)
    (buffer : List Char) (rec : Nat) : OStream × List Char :=
  let origSize := buffer.length
  let buf := (buffer ++ render rec) ++ [Char.ofNat 10]
  ({ os with out := os.out ++ buf.drop origSize }, buf.take origSize)

/-- Model of `OStreamSink::flush`: forwards one flush to the destination. -/
def ostream_sink_flush (os : OStream) : OStream :=
  { os with flushes := os.flushes + 1 }

/-- Claim C8: for every record, `OStreamSink::message` writes to the stream
exactly the pattern-rendered record followed by one line-terminator
character, leaves the flush count alone, and restores the buffer to its
pre-call size (hence to its pre-call content); `OStreamSink::flush`
forwards exactly one flush to the destination without writing anything. -/
theorem ostream_sink_spec (render : Nat → List Char) (os : OStream)
    (buffer : List Char) (rec : Nat) :
    (ostream_sink_message render os buffer rec).1.out
      = os.out ++ (render rec ++ [Char.ofNat 10]) ∧
    (ostream_sink_message render os buffer rec).2 = buffer ∧
    (ostream_sink_message render os buffer rec).1.flushes = os.flushes ∧
    (ostream_sink_flush os).flushes = os.flushes + 1 ∧
    (ostream_sink_flush os).out = os.out := by
  refine ⟨?_, ?_, rfl, rfl, rfl⟩
  · simp [ostream_sink_message, List.append_assoc, List.drop_left]
  · simp [ostream_sink_message, List.append_assoc, List.take_left]

/-! ## Synchronized-policy emission and the shared static buffer

The multi-threaded driver's `buffer()` (part_001 lines 406-410) returns a
function-local `static FormatBuffer` — one instance shared by ALL threads
(the single-threaded driver's counterpart, line 218, is `thread_local`).
`message` (lines 427-437) acquires only `ReadLock lock(m_mutex)` — per
spec §5 a shared reader lock, which admits any number of concurrent
emitters — and then renders through that single static buffer.

The interleaved small-step machine below has two emitter threads; each
acquires the shared lock (blocked only while a writer holds the mutex),
appends the two bytes of its rendered record to the shared buffer, and
releases.  Bytes are tagged `(thread, position-in-record)`.  Reader-writer
lock semantics: a read acquisition succeeds whenever no writer holds the
lock, so it never excludes another reader. -/

/-- Identifiers of the two emitter threads. -/
inductive Tid : Type where
  | tA
  | tB
deriving DecidableEq, Repr

/-- State of the synchronized driver: reader count and writer flag of the
shared mutex, the shared static buffer (tagged bytes in append order), and
the two emitters' program counters. -/
structure MTState where
  readers : Nat
  writerHeld : Bool
  buf : List (Nat × Nat)
  pcA : Nat
  pcB : Nat
deriving DecidableEq, Repr

def thread_pc (t : Tid) (s : MTState) : Nat :=
  match t with
  | Tid.tA => s.pcA
  | Tid.tB => s.pcB

def set_pc (t : Tid) (s : MTState) (n : Nat) : MTState :=
  match t with
  | Tid.tA => { s with pcA := n }
  | Tid.tB => { s with pcB := n }

def tid_num (t : Tid) : Nat :=
  match t with
  | Tid.tA => 1
  | Tid.tB => 2

/-- One step of an emitter thread running
`message` under the synchronized policy: pc 0 acquires the shared
(read) lock — it succeeds whenever no writer holds the mutex, regardless of
other readers; pc 1 and 2 append the two bytes of this thread's rendered
record to the shared static buffer; pc 3 releases the lock. -/
def emit_step (t : Tid) (s : MTState) : Option MTState :=
  match thread_pc t s with
  | 0 => if s.writerHeld then none
         else some (set_pc t { s with readers := s.readers + 1 } 1)
  | 1 => some (set_pc t { s with buf := s.buf ++ [(tid_num t, 0)] } 2)
  | 2 => some (set_pc t { s with buf := s.buf ++ [(tid_num t, 1)] } 3)
  | 3 => some (set_pc t { s with readers := s.readers - 1 } 4)
  | _ => none

/-- Run a schedule (an interleaving chosen by the scheduler). -/
def run_sched : List Tid → MTState → Option MTState
  | [], s => some s
  | t :: ts, s =>
    match emit_step t s with
    | none => none
    | some s' => run_sched ts s'

def mt_init : MTState :=
  { readers := 0, writerHeld := false, buf := [], pcA := 0, pcB := 0 }

/-- A thread's record bytes occupy one contiguous block of the buffer. -/
def ids_contiguous (t : Nat) (ids : List Nat) : Bool :=
  ((ids.dropWhile (fun u => u != t)).dropWhile (fun u => u == t)).all
    (fun u => u != t)

/-- No bytes of one rendered record are interleaved with another record. -/
def no_interleaving (buf : List (Nat × Nat)) : Bool :=
  ids_contiguous 1 (buf.map Prod.fst) && ids_contiguous 2 (buf.map Prod.fst)

/-- Claim C6 fails on the code: both emitters may hold the shared (read)
lock of `SinkDriver<Logger, MultiThreadedPolicy>::message` at the same
time — a read acquisition is blocked only by a writer — and both then
append to the single `static FormatBuffer` of `buffer()` (part_001 lines
406-410).  The scheduler interleaving below is reachable from the initial
state under the model's lock discipline and leaves the shared buffer with
the two records' bytes interleaved, violating the claim's "bytes of two
concurrently rendered records are never interleaved within one record". -/
theorem shared_buffer_interleaving :
    run_sched [Tid.tA, Tid.tA, Tid.tB, Tid.tB, Tid.tA, Tid.tB, Tid.tA, Tid.tB] mt_init
      = some { readers := 0, writerHeld := false,
               buf := [(1, 0), (2, 0), (1, 1), (2, 1)], pcA := 4, pcB := 4 } ∧
    no_interleaving [(1, 0), (2, 0), (1, 1), (2, 1)] = false := by
  decide

/-! ## The logger tree and its cached effective-sink sets

The rewritten `SinkDriver` keeps `m_parent`, `m_children`, its own
`m_sinks` (sink -> enabled) and the cache `m_effective_sinks`
(sink -> owning node), refreshed by `update_effective_sinks()`
(declared in the FindLSan.cmake sink.h, line 373).

Modelled from the spec: the body of `update_effective_sinks` is not under
src/ (only its declaration is), so the recomputation algorithm follows
spec §4.1 word for word — take the parent's current effective set (empty
for a root), overlay entries for this node's own ENABLED sinks, each
re-mapped to this node, the local mapping winning where a sink exists in
both; store the result, and if it differs from the previous one recurse
into every child with the new set.

Nodes are a rose tree (a mutual tree/forest inductive); each node carries
its id, its own sink map, its cached effective set (an association list
`sinkId -> ownerNodeId` in a canonical order), and its children. -/

mutual
inductive LTree : Type where
  | node : Nat → List (Nat × Bool) → List (Nat × Nat) → LForest → LTree
inductive LForest : Type where
  | fnil : LForest
  | fcons : LTree → LForest → LForest
end

/-- The node's own enabled sinks, in map order. -/
def own_enabled (own : List (Nat × Bool)) : List Nat :=
  (own.filter (fun p => p.2)).map (fun p => p.1)

/-- Modelled from the spec: one recomputation step of §4.1 — the node's own
enabled sinks mapped to the node itself, overlaid on the parent's
effective set, own entries taking precedence for identical sinks. -/
def overlay (own : List (Nat × Bool)) (me : Nat) (peff : List (Nat × Nat)) :
    List (Nat × Nat) :=
  (own_enabled own).map (fun s => (s, me))
    ++ peff.filter (fun q => !((own_enabled own).contains q.1))

mutual
/-- Modelled from the spec: `update_effective_sinks` — store the
recomputed set; if it differs from the previous one, recurse into every
child with the new parent set, otherwise stop. -/
def update_effective_sinks (peff : List (Nat × Nat)) : LTree → LTree
  | LTree.node i own eff cs =>
    let neweff := overlay own i peff
    if neweff = eff then LTree.node i own eff cs
    else LTree.node i own neweff (update_forest neweff cs)
def update_forest (peff : List (Nat × Nat)) : LForest → LForest
  | LForest.fnil => LForest.fnil
  | LForest.fcons t ts =>
    LForest.fcons (update_effective_sinks peff t) (update_forest peff ts)
end

/-- The structural mutations on a node's own sink map. -/
inductive SinkOp : Type where
  | addSink (s : Nat)
  | removeSink (s : Nat)
  | setEnabled (s : Nat) (b : Bool)

/-- Effect of a structural mutation on the node's own map, through the
operations of the driver. -/
def apply_sink_op : SinkOp → List (Nat × Bool) → List (Nat × Bool)
  | SinkOp.addSink s, m => (add_sink m s).2
  | SinkOp.removeSink s, m => (remove_sink m s).2
  | SinkOp.setEnabled s b, m => (set_sink_enabled m s b).2

/-- An operation addressed to one node of the tree: either a sink-map
mutation at that node, or attaching a fresh child logger (the constructor
taking a parent pointer) beneath it. -/
inductive TreeOp : Type where
  | sinkOp (op : SinkOp)
  | attachChild (nid : Nat)

def forest_append : LForest → LTree → LForest
  | LForest.fnil, t => LForest.fcons t LForest.fnil
  | LForest.fcons t' ts, t => LForest.fcons t' (forest_append ts t)

mutual
/-- Apply a `TreeOp` to the node at `path` (child indices from the root),
threading the parent's current effective set down, and rerun
`update_effective_sinks` from the mutated node as the driver does after
every structural change. -/
def apply_at (path : List Nat) (op : TreeOp) (peff : List (Nat × Nat)) :
    LTree → LTree
  | LTree.node i own eff cs =>
    match path with
    | [] =>
      match op with
      | TreeOp.sinkOp so =>
          update_effective_sinks peff (LTree.node i (apply_sink_op so own) eff cs)
      | TreeOp.attachChild nid =>
          LTree.node i own eff
            (forest_append cs
              (update_effective_sinks eff (LTree.node nid [] [] LForest.fnil)))
    | k :: rest => LTree.node i own eff (apply_at_forest k rest op eff cs)
def apply_at_forest (k : Nat) (path : List Nat) (op : TreeOp)
    (peff : List (Nat × Nat)) : LForest → LForest
  | LForest.fnil => LForest.fnil
  | LForest.fcons t ts =>
    match k with
    | 0 => LForest.fcons (apply_at path op peff t) ts
    | Nat.succ k' => LForest.fcons t (apply_at_forest k' path op peff ts)
end

/-- One recorded operation of a run: the target path and the action. -/
structure DriverOp : Type where
  path : List Nat
  action : TreeOp

/-- The initial topology: a single root logger with no sinks. -/
def initial_tree : LTree := LTree.node 0 [] [] LForest.fnil

/-- Replay a sequence of operations from the initial topology; every
reachable topology is `run_ops ops` for some `ops`. -/
def run_ops (ops : List DriverOp) : LTree :=
  ops.foldl (fun t o => apply_at o.path o.action [] t) initial_tree

mutual
/-- The claimed invariant: every node's cached effective set equals its own
enabled sinks (mapped to itself) overlaid on its parent's effective set,
recursively below a given parent set. -/
def eff_invariant (peff : List (Nat × Nat)) : LTree → Bool
  | LTree.node i own eff cs =>
    decide (eff = overlay own i peff) && forest_invariant eff cs
def forest_invariant (peff : List (Nat × Nat)) : LForest → Bool
  | LForest.fnil => true
  | LForest.fcons t ts => eff_invariant peff t && forest_invariant peff ts
end

/-- The invariant holds strictly below a node (its own cache may be stale). -/
def children_ok : LTree → Bool
  | LTree.node _ _ eff cs => forest_invariant eff cs

def forest_ok : LForest → Bool
  | LForest.fnil => true
  | LForest.fcons t ts => children_ok t && forest_ok ts

theorem eff_invariant_children_ok (peff : List (Nat × Nat)) (t : LTree)
    (h : eff_invariant peff t = true) : children_ok t = true := by
  cases t with
  | node i own eff cs =>
    simp only [eff_invariant, Bool.and_eq_true] at h
    simpa [children_ok] using h.2

theorem forest_invariant_forest_ok (peff : List (Nat × Nat)) :
    (ts : LForest) → forest_invariant peff ts = true → forest_ok ts = true
  | LForest.fnil, _ => rfl
  | LForest.fcons t ts', h => by
    simp only [forest_invariant, Bool.and_eq_true] at h
    simp only [forest_ok, Bool.and_eq_true]
    exact ⟨eff_invariant_children_ok peff t h.1,
      forest_invariant_forest_ok peff ts' h.2⟩

mutual
theorem update_inv (peff : List (Nat × Nat)) :
    (t : LTree) → children_ok t = true →
      eff_invariant peff (update_effective_sinks peff t) = true
  | LTree.node i own eff cs, h => by
    have hch : forest_invariant eff cs = true := by
      simpa [children_ok] using h
    by_cases heq : overlay own i peff = eff
    · have hres : update_effective_sinks peff (LTree.node i own eff cs)
          = LTree.node i own eff cs := by
        simp [update_effective_sinks, heq]
      rw [hres]
      simp only [eff_invariant, Bool.and_eq_true, decide_eq_true_eq]
      exact ⟨heq.symm, hch⟩
    · have hfok : forest_ok cs = true := forest_invariant_forest_ok eff cs hch
      have hres : update_effective_sinks peff (LTree.node i own eff cs)
          = LTree.node i own (overlay own i peff)
              (update_forest (overlay own i peff) cs) := by
        simp [update_effective_sinks, heq]
      rw [hres]
      simp only [eff_invariant, Bool.and_eq_true, decide_eq_true_eq]
      exact ⟨trivial, update_forest_inv (overlay own i peff) cs hfok⟩
theorem update_forest_inv (peff : List (Nat × Nat)) :
    (ts : LForest) → forest_ok ts = true →
      forest_invariant peff (update_forest peff ts) = true
  | LForest.fnil, _ => rfl
  | LForest.fcons t ts', h => by
    simp only [forest_ok, Bool.and_eq_true] at h
    simp [update_forest, forest_invariant, update_inv peff t h.1,
      update_forest_inv peff ts' h.2]
end

theorem forest_invariant_append (peff : List (Nat × Nat)) :
    (ts : LForest) → (t : LTree) → forest_invariant peff ts = true →
      eff_invariant peff t = true →
      forest_invariant peff (forest_append ts t) = true
  | LForest.fnil, t, _, ht => by simp [forest_append, forest_invariant, ht]
  | LForest.fcons t' ts', t, h, ht => by
    simp only [forest_invariant, Bool.and_eq_true] at h
    simp [forest_append, forest_invariant, h.1,
      forest_invariant_append peff ts' t h.2 ht]

mutual
theorem apply_at_inv (path : List Nat) (op : TreeOp) (peff : List (Nat × Nat)) :
    (t : LTree) → eff_invariant peff t = true →
      eff_invariant peff (apply_at path op peff t) = true
  | LTree.node i own eff cs, h => by
    have hpair : eff = overlay own i peff ∧ forest_invariant eff cs = true := by
      simpa [eff_invariant, Bool.and_eq_true] using h
    match path with
    | [] =>
      match op with
      | TreeOp.sinkOp so =>
        have hch : children_ok (LTree.node i (apply_sink_op so own) eff cs) = true := by
          simpa [children_ok] using hpair.2
        simpa [apply_at] using
          update_inv peff (LTree.node i (apply_sink_op so own) eff cs) hch
      | TreeOp.attachChild nid =>
        have hnew : eff_invariant eff
            (update_effective_sinks eff (LTree.node nid [] [] LForest.fnil)) = true :=
          update_inv eff (LTree.node nid [] [] LForest.fnil) rfl
        have happ := forest_invariant_append eff cs
          (update_effective_sinks eff (LTree.node nid [] [] LForest.fnil))
          hpair.2 hnew
        simp only [apply_at, eff_invariant, Bool.and_eq_true, decide_eq_true_eq]
        exact ⟨hpair.1, happ⟩
    | k :: rest =>
      have hf := apply_at_forest_inv k rest op eff cs hpair.2
      simp only [apply_at, eff_invariant, Bool.and_eq_true, decide_eq_true_eq]
      exact ⟨hpair.1, hf⟩
theorem apply_at_forest_inv (k : Nat) (path : List Nat) (op : TreeOp)
    (peff : List (Nat × Nat)) :
    (ts : LForest) → forest_invariant peff ts = true →
      forest_invariant peff (apply_at_forest k path op peff ts) = true
  | LForest.fnil, _ => rfl
  | LForest.fcons t ts', h => by
    have hpair : eff_invariant peff t = true ∧ forest_invariant peff ts' = true := by
      simpa [forest_invariant, Bool.and_eq_true] using h
    match k with
    | 0 =>
      simp [apply_at_forest, forest_invariant,
        apply_at_inv path op peff t hpair.1, hpair.2]
    | Nat.succ k' =>
      simp [apply_at_forest, forest_invariant, hpair.1,
        apply_at_forest_inv k' path op peff ts' hpair.2]
end

/-- Claim C3: for every reachable topology — any sequence of sink
add/remove/enable mutations and child attachments, applied at any nodes in
any order — every node's cached effective sink set equals its own enabled
sinks (each mapped to the node itself) overlaid on its parent's effective
set, with the local entry winning for a sink present in both (the root's
parent set being empty).  `eff_invariant` states exactly that equation at
every node of the tree. -/
theorem effective_sinks_invariant (ops : List DriverOp) :
    eff_invariant [] (run_ops ops) = true := by
  suffices h : ∀ t : LTree, eff_invariant [] t = true →
      eff_invariant []
        (ops.foldl (fun t' o => apply_at o.path o.action [] t') t) = true by
    exact h initial_tree (by decide)
  induction ops with
  | nil => intro t ht; simpa using ht
  | cons o os ih =>
    intro t ht
    simpa [List.foldl] using ih _ (apply_at_inv o.path o.action [] t ht)
